import Mathlib

/-!
Verification of the batch scheduler and dual-queue dependency resolver of
nvpro-samples/vk_timeline_semaphore (timeline_semaphore_main.cpp, compute.cpp,
mcubes_chunk.hpp), as a shallow embedding.  The Vulkan calls themselves are
external effects; what is modelled is the scheduler-visible mutable state
(the logical clock s_upcomingTimelineValue, the ring cursor s_mcubesChunkIndex,
per-chunk McubesChunk::timelineValue, the per-frame pool wait values and
command-buffer list sizes) and the timeline values handed to each submit.
-/

set_option autoImplicit false

namespace TimelineSemaphore

/-- MCUBES_MAX_CHUNKS_PER_BATCH from mcubes_chunk.hpp: maximum chunks per command buffer. -/
def MCUBES_MAX_CHUNKS_PER_BATCH : Nat := 6

/-- MCUBES_CHUNK_COUNT from mcubes_chunk.hpp: number of McubesChunk in the ring buffer. -/
def MCUBES_CHUNK_COUNT : Nat := 12

/-- Conversion of a C++ int to uint32_t, as performed implicitly by the
    glm::clamp(uint32) instantiation on pGui's m_batchSize (modular reduction). -/
def uint32OfInt (x : Int) : Nat := (x % (2 ^ 32)).toNat

/-- glm::clamp x minVal maxVal computes min(max(x, minVal), maxVal). -/
def glmClamp (x lo hi : Nat) : Nat := min (max x lo) hi

/-- Effective batch size used by both schedulers:
    glm::clamp(uint32)(pGui's m_batchSize, 1u, MCUBES_MAX_CHUNKS_PER_BATCH). -/
def effectiveBatchSize (m_batchSize : Int) : Nat :=
  glmClamp (uint32OfInt m_batchSize) 1 MCUBES_MAX_CHUNKS_PER_BATCH

/-- batchCount = uint32_t(paramsList.size() + batchSize - 1u) / batchSize. -/
def batchCountOf (jobCount batchSize : Nat) : Nat :=
  ((jobCount + batchSize - 1) % 2 ^ 32) / batchSize

/-- The (batchStart, batchEnd) index pair of each batch, in batch order:
    batchStart = batch * batchSize, batchEnd = min(batchStart + batchSize, jobCount).
    Shared verbatim by computeDrawCommandsTwoQueues and computeDrawCommandsGctOnly. -/
def batchSlices (jobCount batchSize : Nat) : List (Nat × Nat) :=
  (List.range (batchCountOf jobCount batchSize)).map
    (fun b => (b * batchSize, min (b * batchSize + batchSize) jobCount))

/-- The per-batch item counts batchEnd - batchStart, in batch order. -/
def batchItemCounts (jobCount batchSize : Nat) : List Nat :=
  (batchSlices jobCount batchSize).map (fun p => p.2 - p.1)

/-- The sublists of the job list handed to each batch
    (the pointer-plus-count pair &paramsList[batchStart], batchEnd - batchStart). -/
def frameBatches {α : Type} (jobs : List α) (batchSize : Nat) : List (List α) :=
  (batchSlices jobs.length batchSize).map (fun p => (jobs.drop p.1).take (p.2 - p.1))

/-- One ring-cursor advance: ++s_mcubesChunkIndex; reset to 0 on reaching
    MCUBES_CHUNK_COUNT. -/
def nextChunkIndex (i : Nat) : Nat :=
  if i + 1 ≥ MCUBES_CHUNK_COUNT then 0 else i + 1

/-- The chunk-selection loop of one batch: starting from cursor i, select
    count consecutive ring slots (chunkPointerArray), returning the selected
    chunk indices in order together with the final cursor. -/
def selectChunks : Nat → Nat → List Nat × Nat
  | 0, i => ([], i)
  | Nat.succ n, i =>
    let j := nextChunkIndex i
    let r := selectChunks n j
    (j :: r.1, r.2)

/-- The scheduler-visible mutable state of timeline_semaphore_main.cpp.
    timelineValues i is g_mcubesChunkArray[i].timelineValue (only i below
    MCUBES_CHUNK_COUNT is ever touched); the pool wait values and
    command-buffer list lengths are indexed by frame parity. -/
structure SchedState where
  upcoming : Nat
  chunkIndex : Nat
  timelineValues : Nat → Nat
  computePoolWaitValues : Fin 2 → Nat
  graphicsPoolWaitValues : Fin 2 → Nat
  computeCmdBufCounts : Fin 2 → Nat
  graphicsCmdBufCounts : Fin 2 → Nat

/-- Initial values of the statics: s_upcomingTimelineValue = 1,
    s_mcubesChunkIndex = 0, every McubesChunk timelineValue = 0,
    both pool wait arrays = {0, 0}, no command buffers allocated yet. -/
def initState : SchedState where
  upcoming := 1
  chunkIndex := 0
  timelineValues := fun _ => 0
  computePoolWaitValues := fun _ => 0
  graphicsPoolWaitValues := fun _ => 0
  computeCmdBufCounts := fun _ => 0
  graphicsCmdBufCounts := fun _ => 0

/-- What one dual-queue batch submits: the selected chunk indices, the
    timelineValue of each selected chunk as read at lines 465-468 (before the
    batch overwrites them), and the timeline values handed to the two
    vkQueueSubmit calls of the batch. -/
structure BatchRecord where
  slots : List Nat
  readValues : List Nat
  computeWait : Nat
  computeSignal : Nat
  graphicsWait : Nat
  graphicsSignal : Nat
deriving DecidableEq

/-- The write loop at lines 481-485: chunkPointerArray[k] gets timelineValue v. -/
def writeSlots (tv : Nat → Nat) (slots : List Nat) (v : Nat) : Nat → Nat :=
  slots.foldl (fun f s => Function.update f s v) tv

/-- The body of one iteration of the batch loop of computeDrawCommandsTwoQueues:
    select ring slots, accumulate computeWaitTimelineValue (w) over the selected
    chunks' timelineValue, record the new timelineValue of each selected chunk as
    s_upcomingTimelineValue, submit compute (signal upcoming) and graphics
    (wait and signal upcoming), record the pool wait values on the last batch,
    and increment s_upcomingTimelineValue. -/
def twoQueuesBatchStep (par : Fin 2) (isLast : Bool) (count : Nat) (st : SchedState)
    (w : Nat) : SchedState × Nat × BatchRecord :=
  let sel := selectChunks count st.chunkIndex
  let readValues := sel.1.map st.timelineValues
  let w' := readValues.foldl max w
  ({ upcoming := st.upcoming + 1
     chunkIndex := sel.2
     timelineValues := writeSlots st.timelineValues sel.1 st.upcoming
     computePoolWaitValues :=
       if isLast then Function.update st.computePoolWaitValues par st.upcoming
       else st.computePoolWaitValues
     graphicsPoolWaitValues :=
       if isLast then Function.update st.graphicsPoolWaitValues par st.upcoming
       else st.graphicsPoolWaitValues
     computeCmdBufCounts := st.computeCmdBufCounts
     graphicsCmdBufCounts := st.graphicsCmdBufCounts },
   w',
   { slots := sel.1
     readValues := readValues
     computeWait := w'
     computeSignal := st.upcoming
     graphicsWait := st.upcoming
     graphicsSignal := st.upcoming })

/-- The batch loop of computeDrawCommandsTwoQueues over the remaining per-batch
    item counts.  w is computeWaitTimelineValue, declared once per frame at line
    366 and never reset between batches. -/
def twoQueuesBatches (par : Fin 2) :
    List Nat → SchedState → Nat → SchedState × Nat × List BatchRecord
  | [], st, w => (st, w, [])
  | count :: rest, st, w =>
    let s := twoQueuesBatchStep par rest.isEmpty count st w
    let r := twoQueuesBatches par rest s.1 s.2.1
    (r.1, r.2.1, s.2.2 :: r.2.2)

/-- computeDrawCommandsTwoQueues: scheduler-state effect of one dual-queue frame
    plus the list of per-batch submissions.  Command buffers are recycled; the
    list for this frame parity grows to the batch count when it was shorter. -/
def computeDrawCommandsTwoQueues (frameNumber : Nat) (m_batchSize : Int)
    (jobCount : Nat) (st : SchedState) : SchedState × List BatchRecord :=
  let par : Fin 2 := ⟨frameNumber % 2, Nat.mod_lt _ (by decide)⟩
  let batchSize := effectiveBatchSize m_batchSize
  let counts := batchItemCounts jobCount batchSize
  let res := twoQueuesBatches par counts st 0
  ({ res.1 with
      computeCmdBufCounts :=
        Function.update res.1.computeCmdBufCounts par
          (max (res.1.computeCmdBufCounts par) counts.length)
      graphicsCmdBufCounts :=
        Function.update res.1.graphicsCmdBufCounts par
          (max (res.1.graphicsCmdBufCounts par) counts.length) },
   res.2.2)

/-- The batch loop of computeDrawCommandsGctOnly: only the ring cursor moves;
    returns the final cursor and the chunk indices selected per batch. -/
def gctOnlyBatches : List Nat → Nat → Nat × List (List Nat)
  | [], c => (c, [])
  | count :: rest, c =>
    let sel := selectChunks count c
    let r := gctOnlyBatches rest sel.2
    (r.1, sel.1 :: r.2)

/-- computeDrawCommandsGctOnly: scheduler-state effect of one single-queue frame
    plus the chunk indices selected per batch.  It synchronizes with fences, so
    it touches neither s_upcomingTimelineValue, nor any McubesChunk
    timelineValue, nor the pool wait values; of the modelled state it mutates
    only s_mcubesChunkIndex and the graphics command-buffer list of this parity. -/
def computeDrawCommandsGctOnly (frameNumber : Nat) (m_batchSize : Int)
    (jobCount : Nat) (st : SchedState) : SchedState × List (List Nat) :=
  let par : Fin 2 := ⟨frameNumber % 2, Nat.mod_lt _ (by decide)⟩
  let batchSize := effectiveBatchSize m_batchSize
  let counts := batchItemCounts jobCount batchSize
  let res := gctOnlyBatches counts st.chunkIndex
  ({ st with
      chunkIndex := res.1
      graphicsCmdBufCounts :=
        Function.update st.graphicsCmdBufCounts par
          (max (st.graphicsCmdBufCounts par) counts.length) },
   res.2)

/-- The structural-safety assertion at line 639 of the single-queue scheduler:
    assert(batchSize <= MCUBES_CHUNK_COUNT / 2u).  It is the only rejection
    mechanism that function has for a configured batch size. -/
def gctBatchSizeAssertOk (m_batchSize : Int) : Bool :=
  decide (effectiveBatchSize m_batchSize ≤ MCUBES_CHUNK_COUNT / 2)

/-- Per-frame input: which scheduler s_useComputeQueue selects for the frame,
    the GUI-configured batch size, and the job-list length returned by
    getMcubesJobs for the frame. -/
inductive FrameInput where
  | twoQueues (m_batchSize : Int) (jobCount : Nat)
  | gctOnly (m_batchSize : Int) (jobCount : Nat)
deriving DecidableEq

/-- Job-list length of a frame input. -/
def FrameInput.jobCount : FrameInput → Nat
  | .twoQueues _ m => m
  | .gctOnly _ m => m

/-- True when the frame runs the dual-queue scheduler. -/
def FrameInput.isTwoQueues : FrameInput → Bool
  | .twoQueues _ _ => true
  | .gctOnly _ _ => false

/-- One main-loop frame: dispatch on the scheduler mode.  Besides the state it
    yields the dual-queue batch records and all ring slots assigned this frame. -/
def runFrame (frameNumber : Nat) (f : FrameInput) (st : SchedState) :
    SchedState × List BatchRecord × List Nat :=
  match f with
  | .twoQueues b m =>
    let res := computeDrawCommandsTwoQueues frameNumber b m st
    (res.1, res.2, (res.2.map BatchRecord.slots).flatten)
  | .gctOnly b m =>
    let res := computeDrawCommandsGctOnly frameNumber b m st
    (res.1, [], res.2.flatten)

/-- Run a sequence of frames with the frame number incrementing by one per
    frame, as in main().  Returns the final state, the dual-queue batch records
    and the assigned ring slots of the whole run, in order. -/
def runFrames : List FrameInput → Nat → SchedState → SchedState × List BatchRecord × List Nat
  | [], _, st => (st, [], [])
  | f :: rest, n, st =>
    let r1 := runFrame n f st
    let r2 := runFrames rest (n + 1) r1.1
    (r2.1, r1.2.1 ++ r2.2.1, r1.2.2 ++ r2.2.2)

/-- Modelled from the spec: producerWaitThreshold is the maximum readyClockValue
    across exactly the resource slots selected for this batch, read before the
    batch overwrites them (spec section 4.1 step 1).  Stated on a batch record,
    whose readValues are exactly those reads. -/
def specBatchProducerWaitThreshold (r : BatchRecord) : Nat :=
  r.readValues.foldl max 0

/-- The batch record of the last batch of recs that used chunk i, if any. -/
def lastUse (recs : List BatchRecord) (i : Nat) : Option BatchRecord :=
  (recs.filter (fun r => decide (i ∈ r.slots))).getLast?

/-- The state of compute.cpp that setupMcubesImagePipeline may replace: the
    handle held in s_mcubesImagePipeline (the active marching-cubes kernel). -/
structure ComputeState where
  mcubesImagePipeline : Nat
deriving DecidableEq

/-- setupMcubesImagePipeline of compute.cpp.  The shader compiler is external:
    compiledModule is none when createShaderModule / get yields a null module
    (compilation failure), some handle otherwise; makePipeline stands for
    vkCreateComputePipelines on that module.  The null check returns false
    before the old pipeline is destroyed or replaced. -/
def setupMcubesImagePipeline (compiledModule : Option Nat) (makePipeline : Nat → Nat)
    (st : ComputeState) : Bool × ComputeState :=
  match compiledModule with
  | none => (false, st)
  | some m => (true, { st with mcubesImagePipeline := makePipeline m })

/-- computeReplaceEquation of compute.cpp: build the EQUATION prepend and
    forward to setupMcubesImagePipeline, returning its success flag. -/
def computeReplaceEquation (compiledModule : Option Nat) (makePipeline : Nat → Nat)
    (st : ComputeState) : Bool × ComputeState :=
  setupMcubesImagePipeline compiledModule makePipeline st

/-- The host-side calls issued by the GUI-event block at the top of each
    main-loop iteration (main, lines 738-752). -/
inductive HostAction where
  | updateSwapChain
  | deviceWaitIdle
  | replaceEquation
deriving DecidableEq

/-- The outcome of the GUI-event block: the new s_useComputeQueue, the new
    m_compileFailure flag, the compute-module and scheduler state after the
    block, and the host actions performed in order. -/
structure GuiEventResult where
  useComputeQueue : Bool
  compileFailure : Bool
  comp : ComputeState
  sched : SchedState
  actions : List HostAction

/-- The GUI-event response block of the main loop: update the swap chain on a
    vsync change; on a queue-mode change, vkDeviceWaitIdle then adopt the new
    mode; on m_wantSetEquation, vkDeviceWaitIdle then computeReplaceEquation,
    recording its negated success flag in m_compileFailure (sticky otherwise).
    The scheduler statics are not referenced by the block. -/
def mainLoopGuiEvents (useComputeQueue wantComputeQueue wantSetEquation vsyncChanged
    compileFailure : Bool) (compiledModule : Option Nat) (makePipeline : Nat → Nat)
    (comp : ComputeState) (sched : SchedState) : GuiEventResult :=
  let acts0 : List HostAction := if vsyncChanged then [.updateSwapChain] else []
  let queueChanged := wantComputeQueue != useComputeQueue
  let acts1 := acts0 ++ (if queueChanged then [HostAction.deviceWaitIdle] else [])
  let useComputeQueue' := if queueChanged then wantComputeQueue else useComputeQueue
  if wantSetEquation then
    let r := computeReplaceEquation compiledModule makePipeline comp
    { useComputeQueue := useComputeQueue'
      compileFailure := !r.1
      comp := r.2
      sched := sched
      actions := acts1 ++ [.deviceWaitIdle, .replaceEquation] }
  else
    { useComputeQueue := useComputeQueue'
      compileFailure := compileFailure
      comp := comp
      sched := sched
      actions := acts1 }

/-- The clock invariant behind claim C1: the upcoming timeline value is
    positive and strictly above every recorded chunk timelineValue. -/
def ClockInv (st : SchedState) : Prop :=
  1 ≤ st.upcoming ∧ ∀ i, st.timelineValues i < st.upcoming

/-- The ring invariant behind claim C2: the cursor is in range, the chunk
    timelineValues are nondecreasing along the ring when traversed starting
    just after the cursor, and all lie strictly below the upcoming value. -/
def RingInv (st : SchedState) : Prop :=
  st.chunkIndex < MCUBES_CHUNK_COUNT
  ∧ (∀ j k, 1 ≤ j → j ≤ k → k ≤ MCUBES_CHUNK_COUNT →
      st.timelineValues ((st.chunkIndex + j) % MCUBES_CHUNK_COUNT)
        ≤ st.timelineValues ((st.chunkIndex + k) % MCUBES_CHUNK_COUNT))
  ∧ (∀ i, st.timelineValues i < st.upcoming)

/-- Number of timeline-signalling batch submissions a frame performs: the batch
    count in dual-queue mode, none in single-queue mode. -/
def frameBatchTotal : FrameInput → Nat
  | .twoQueues b m => batchCountOf m (effectiveBatchSize b)
  | .gctOnly _ _ => 0

/-- Total number of jobs over a run of frames. -/
def totalJobCount (inputs : List FrameInput) : Nat :=
  (inputs.map FrameInput.jobCount).sum

/-- A run mixing the two scheduler modes: a dual-queue frame of 18 jobs, a
    single-queue frame of 6 jobs (which advances the ring cursor but records no
    timeline values), then a dual-queue frame of 12 jobs, batch size 6
    throughout. -/
def mixedModeInputs : List FrameInput :=
  [FrameInput.twoQueues 6 18, FrameInput.gctOnly 6 6, FrameInput.twoQueues 6 12]

/-- The dual-queue batch records submitted over mixedModeInputs. -/
def mixedModeTrace : List BatchRecord :=
  (runFrames mixedModeInputs 1 initState).2.1

/-! Helper lemmas about folds, ring-slot writes and chunk selection. -/

lemma foldl_max_lt (u : Nat) : ∀ (l : List Nat) (w : Nat), w < u → (∀ x ∈ l, x < u) →
    l.foldl max w < u := by
  intro l
  induction l with
  | nil => intro w hw _; exact hw
  | cons x l ih =>
    intro w hw hl
    simp only [List.foldl_cons]
    refine ih _ ?_ (fun y hy => hl y (List.mem_cons_of_mem _ hy))
    have := hl x (List.mem_cons_self x l)
    omega

lemma foldl_max_le (B : Nat) : ∀ (l : List Nat) (w : Nat), w ≤ B → (∀ x ∈ l, x ≤ B) →
    l.foldl max w ≤ B := by
  intro l
  induction l with
  | nil => intro w hw _; exact hw
  | cons x l ih =>
    intro w hw hl
    simp only [List.foldl_cons]
    refine ih _ ?_ (fun y hy => hl y (List.mem_cons_of_mem _ hy))
    have := hl x (List.mem_cons_self x l)
    omega

lemma foldl_max_seed_absorb : ∀ (l : List Nat) (w x : Nat), w ≤ x →
    (x :: l).foldl max w = (x :: l).foldl max 0 := by
  intro l w x hwx
  simp only [List.foldl_cons]
  have h1 : max w x = x := by omega
  have h2 : max 0 x = x := by omega
  rw [h1, h2]

lemma writeSlots_apply : ∀ (slots : List Nat) (tv : Nat → Nat) (v i : Nat),
    writeSlots tv slots v i = if i ∈ slots then v else tv i := by
  intro slots
  induction slots with
  | nil => intro tv v i; simp [writeSlots]
  | cons s rest ih =>
    intro tv v i
    show writeSlots (Function.update tv s v) rest v i = _
    rw [ih]
    by_cases h : i ∈ rest
    · simp [h]
    · by_cases hs : i = s
      · simp [h, hs, Function.update_apply]
      · simp [h, hs, Function.update_apply]

lemma nextChunkIndex_eq {c : Nat} (hc : c < MCUBES_CHUNK_COUNT) :
    nextChunkIndex c = (c + 1) % MCUBES_CHUNK_COUNT := by
  simp only [nextChunkIndex, MCUBES_CHUNK_COUNT] at *
  split <;> omega

lemma nextChunkIndex_lt (c : Nat) : nextChunkIndex c < MCUBES_CHUNK_COUNT := by
  simp only [nextChunkIndex, MCUBES_CHUNK_COUNT]
  split <;> omega

lemma selectChunks_eq : ∀ (n c : Nat), c < MCUBES_CHUNK_COUNT →
    selectChunks n c =
      ((List.range n).map (fun k => (c + 1 + k) % MCUBES_CHUNK_COUNT),
       (c + n) % MCUBES_CHUNK_COUNT) := by
  intro n
  induction n with
  | zero =>
    intro c hc
    simp [selectChunks, Nat.mod_eq_of_lt hc]
  | succ m ih =>
    intro c hc
    have hj := nextChunkIndex_lt c
    have hje := nextChunkIndex_eq hc
    simp only [selectChunks, ih _ hj, List.range_succ_eq_map, List.map_cons, List.map_map,
      Prod.mk.injEq, List.cons.injEq]
    refine ⟨⟨?_, ?_⟩, ?_⟩
    · simp only [MCUBES_CHUNK_COUNT] at *
      omega
    · refine List.map_congr_left ?_
      intro a _
      simp only [Function.comp_apply, Nat.succ_eq_add_one, MCUBES_CHUNK_COUNT] at *
      omega
    · simp only [MCUBES_CHUNK_COUNT] at *
      omega

lemma selectChunks_cursor_lt (n : Nat) {c : Nat} (hc : c < MCUBES_CHUNK_COUNT) :
    (selectChunks n c).2 < MCUBES_CHUNK_COUNT := by
  rw [selectChunks_eq n c hc]
  exact Nat.mod_lt _ (by simp [MCUBES_CHUNK_COUNT])

lemma selectChunks_length (n c : Nat) : (selectChunks n c).1.length = n := by
  induction n generalizing c with
  | zero => rfl
  | succ m ih => simp [selectChunks, ih]

/-! Arithmetic of the batch partition. -/

lemma batchCountOf_eq {m B : Nat} (h : m + B - 1 < 2 ^ 32) :
    batchCountOf m B = (m + B - 1) / B := by
  unfold batchCountOf
  congr 1
  omega

lemma ceil_bounds {m B : Nat} (hB : 1 ≤ B) (hm : 1 ≤ m) :
    1 ≤ (m + B - 1) / B ∧ m ≤ ((m + B - 1) / B) * B ∧ (((m + B - 1) / B) - 1) * B < m := by
  have hdm := Nat.div_add_mod (m + B - 1) B
  have hr : (m + B - 1) % B < B := Nat.mod_lt _ (by omega)
  by_cases h0 : (m + B - 1) / B = 0
  · rw [h0] at hdm
    exfalso
    omega
  · have hk1 : 1 ≤ (m + B - 1) / B := Nat.pos_of_ne_zero h0
    have hsub : ((m + B - 1) / B - 1) * B + B = ((m + B - 1) / B) * B := by
      have h1 : (m + B - 1) / B - 1 + 1 = (m + B - 1) / B := by omega
      calc ((m + B - 1) / B - 1) * B + B = ((m + B - 1) / B - 1 + 1) * B := by
            rw [Nat.succ_mul]
        _ = ((m + B - 1) / B) * B := by rw [h1]
    have hbk : B * ((m + B - 1) / B) = ((m + B - 1) / B) * B := Nat.mul_comm _ _
    refine ⟨hk1, ?_, ?_⟩ <;> omega

lemma lt_of_lt_batchCount {m B b : Nat} (hB : 1 ≤ B) (hb : b < batchCountOf m B) :
    b * B < m := by
  have hbc : batchCountOf m B ≤ (m + B - 1) / B := by
    simp only [batchCountOf]
    exact Nat.div_le_div_right (Nat.mod_le _ _)
  by_cases hm : m = 0
  · exfalso
    have hz : batchCountOf 0 B = 0 := by
      simp only [batchCountOf]
      refine Nat.div_eq_of_lt ?_
      have : (0 + B - 1) % 2 ^ 32 ≤ B - 1 := Nat.le_trans (Nat.mod_le _ _) (by omega)
      omega
    rw [hm] at hb
    omega
  · obtain ⟨hk1, hub, hlb⟩ := ceil_bounds hB (show 1 ≤ m by omega)
    revert hbc hk1 hub hlb
    generalize (m + B - 1) / B = K
    intro hbc hk1 hub hlb
    have hbK : b ≤ K - 1 := by omega
    have hmono : b * B ≤ (K - 1) * B := Nat.mul_le_mul_right _ hbK
    omega

lemma batchItemCounts_eq (m B : Nat) :
    batchItemCounts m B =
      (List.range (batchCountOf m B)).map (fun b => min (b * B + B) m - b * B) := by
  simp only [batchItemCounts, batchSlices, List.map_map]
  rfl

lemma mem_batchItemCounts {m B x : Nat} (hB : 1 ≤ B) (hx : x ∈ batchItemCounts m B) :
    1 ≤ x ∧ x ≤ B := by
  rw [batchItemCounts_eq] at hx
  obtain ⟨b, hb, rfl⟩ := List.mem_map.mp hx
  rw [List.mem_range] at hb
  have := lt_of_lt_batchCount hB hb
  omega

lemma sum_range_counts (m B : Nat) :
    ∀ j, ((List.range j).map (fun b => min (b * B + B) m - b * B)).sum = min (j * B) m := by
  intro j
  induction j with
  | zero => simp
  | succ n ih =>
    rw [List.range_succ, List.map_append, List.sum_append, ih]
    simp only [List.map_cons, List.map_nil, List.sum_cons, List.sum_nil]
    have hmul : (n + 1) * B = n * B + B := Nat.succ_mul n B
    omega

lemma batchItemCounts_sum {m B : Nat} (hB : 1 ≤ B) (hw : m + B - 1 < 2 ^ 32) :
    (batchItemCounts m B).sum = m := by
  rw [batchItemCounts_eq, sum_range_counts m B, batchCountOf_eq hw]
  by_cases hm : m = 0
  · subst hm
    simp
  · obtain ⟨_, hub, _⟩ := ceil_bounds hB (show 1 ≤ m by omega)
    revert hub
    generalize (m + B - 1) / B = K
    intro hub
    omega

lemma batchItemCounts_length (m B : Nat) :
    (batchItemCounts m B).length = batchCountOf m B := by
  simp [batchItemCounts_eq]

/-! The partition of the job list. -/

lemma frameBatches_eq {α : Type} (jobs : List α) (B : Nat) :
    frameBatches jobs B =
      (List.range (batchCountOf jobs.length B)).map
        (fun b => (jobs.drop (b * B)).take (min (b * B + B) jobs.length - b * B)) := by
  simp only [frameBatches, batchSlices, List.map_map]
  rfl

lemma frameBatches_length {α : Type} (jobs : List α) (B : Nat) :
    (frameBatches jobs B).length = batchCountOf jobs.length B := by
  simp [frameBatches_eq]

lemma frameBatches_flatten_aux {α : Type} (jobs : List α) (B : Nat) :
    ∀ j, (((List.range j).map
        (fun b => (jobs.drop (b * B)).take (min (b * B + B) jobs.length - b * B))).flatten
      = jobs.take (min (j * B) jobs.length)) := by
  intro j
  induction j with
  | zero => simp
  | succ n ih =>
    rw [List.range_succ, List.map_append, List.flatten_append, ih]
    simp only [List.map_cons, List.map_nil, List.flatten_cons, List.flatten_nil,
      List.append_nil]
    by_cases h : jobs.length ≤ n * B
    · have h1 : min (n * B) jobs.length = jobs.length := by omega
      have h2 : min (n * B + B) jobs.length - n * B = 0 := by omega
      have h3 : min ((n + 1) * B) jobs.length = jobs.length := by
        rw [Nat.succ_mul]
        omega
      rw [h1, h2, h3]
      simp
    · have h1 : min (n * B) jobs.length = n * B := by omega
      have h3 : (n + 1) * B = n * B + B := Nat.succ_mul n B
      have h5 : min (n * B + B) jobs.length
          = n * B + (min (n * B + B) jobs.length - n * B) := by omega
      rw [h1, h3, h5, List.take_add, Nat.add_sub_cancel_left]

lemma frameBatches_flatten {α : Type} (jobs : List α) {B : Nat} (hB : 1 ≤ B)
    (hw : jobs.length + B - 1 < 2 ^ 32) :
    (frameBatches jobs B).flatten = jobs := by
  rw [frameBatches_eq, frameBatches_flatten_aux, batchCountOf_eq hw]
  by_cases hm : jobs.length = 0
  · have : jobs = [] := List.eq_nil_of_length_eq_zero hm
    simp [this]
  · obtain ⟨_, hub, _⟩ := ceil_bounds hB (show 1 ≤ jobs.length by omega)
    revert hub
    generalize ((jobs.length + B - 1) / B) * B = t
    intro hub
    have hmin : min t jobs.length = jobs.length := by omega
    rw [hmin, List.take_length]

lemma frameBatches_get {α : Type} (jobs : List α) (B b : Nat)
    (hb : b < batchCountOf jobs.length B) :
    (frameBatches jobs B).get? b
      = some ((jobs.drop (b * B)).take (min (b * B + B) jobs.length - b * B)) := by
  rw [frameBatches_eq, List.get?_map, List.get?_range hb]
  rfl

lemma frameBatches_sizes {α : Type} (jobs : List α) {B : Nat} (hB : 1 ≤ B) :
    ∀ l ∈ frameBatches jobs B, 1 ≤ l.length ∧ l.length ≤ B := by
  intro l hl
  rw [frameBatches_eq] at hl
  obtain ⟨b, hb, rfl⟩ := List.mem_map.mp hl
  rw [List.mem_range] at hb
  have hlt := lt_of_lt_batchCount hB hb
  rw [List.length_take, List.length_drop]
  rw [inf_eq_min]
  omega

lemma frameBatches_full {α : Type} (jobs : List α) {B b : Nat} (hB : 1 ≤ B)
    (hb : b + 1 < batchCountOf jobs.length B) :
    ((frameBatches jobs B).get? b).map List.length = some B := by
  rw [frameBatches_get _ _ _ (by omega)]
  have hlt := lt_of_lt_batchCount (m := jobs.length) (b := b + 1) hB (by omega)
  have h2 : (b + 1) * B = b * B + B := Nat.succ_mul b B
  simp only [Option.map_some']
  congr 1
  rw [List.length_take, List.length_drop, inf_eq_min]
  omega

/-! Projections of one dual-queue batch step. -/

lemma batchStep_upcoming (par : Fin 2) (l : Bool) (count : Nat) (st : SchedState) (w : Nat) :
    (twoQueuesBatchStep par l count st w).1.upcoming = st.upcoming + 1 := rfl

lemma batchStep_chunkIndex (par : Fin 2) (l : Bool) (count : Nat) (st : SchedState) (w : Nat) :
    (twoQueuesBatchStep par l count st w).1.chunkIndex = (selectChunks count st.chunkIndex).2 := rfl

lemma batchStep_timelineValues (par : Fin 2) (l : Bool) (count : Nat) (st : SchedState) (w : Nat) :
    (twoQueuesBatchStep par l count st w).1.timelineValues
      = writeSlots st.timelineValues (selectChunks count st.chunkIndex).1 st.upcoming := rfl

lemma batchStep_w (par : Fin 2) (l : Bool) (count : Nat) (st : SchedState) (w : Nat) :
    (twoQueuesBatchStep par l count st w).2.1
      = ((selectChunks count st.chunkIndex).1.map st.timelineValues).foldl max w := rfl

lemma batchStep_record (par : Fin 2) (l : Bool) (count : Nat) (st : SchedState) (w : Nat) :
    (twoQueuesBatchStep par l count st w).2.2
      = { slots := (selectChunks count st.chunkIndex).1
          readValues := (selectChunks count st.chunkIndex).1.map st.timelineValues
          computeWait := ((selectChunks count st.chunkIndex).1.map st.timelineValues).foldl max w
          computeSignal := st.upcoming
          graphicsWait := st.upcoming
          graphicsSignal := st.upcoming } := rfl

/-! The clock invariant: every recorded chunk timelineValue lies strictly below
    the upcoming timeline value (claim C1's underlying invariant). -/

lemma writeSlots_lt {tv : Nat → Nat} {slots : List Nat} {v u : Nat}
    (htv : ∀ i, tv i < u) (hv : v < u) : ∀ i, writeSlots tv slots v i < u := by
  intro i
  rw [writeSlots_apply]
  by_cases h : i ∈ slots
  · simpa [h] using hv
  · simpa [h] using htv i

lemma clockInv_batchStep (par : Fin 2) (l : Bool) (count : Nat) (st : SchedState) (w : Nat)
    (h : ClockInv st) (hw : w < st.upcoming) :
    ClockInv (twoQueuesBatchStep par l count st w).1
    ∧ (twoQueuesBatchStep par l count st w).2.1 < (twoQueuesBatchStep par l count st w).1.upcoming
    ∧ (twoQueuesBatchStep par l count st w).2.2.computeWait
        < (twoQueuesBatchStep par l count st w).2.2.computeSignal := by
  obtain ⟨h1, h2⟩ := h
  have hw' : ((selectChunks count st.chunkIndex).1.map st.timelineValues).foldl max w
      < st.upcoming := by
    refine foldl_max_lt _ _ _ hw ?_
    intro x hx
    obtain ⟨s, _, rfl⟩ := List.mem_map.mp hx
    exact h2 s
  refine ⟨⟨?_, ?_⟩, ?_, ?_⟩
  · rw [batchStep_upcoming]; omega
  · rw [batchStep_upcoming, batchStep_timelineValues]
    exact writeSlots_lt (fun i => by have := h2 i; omega) (by omega)
  · rw [batchStep_upcoming, batchStep_w]; omega
  · rw [batchStep_record]; exact hw'

lemma clockInv_twoQueuesBatches (par : Fin 2) :
    ∀ (counts : List Nat) (st : SchedState) (w : Nat), ClockInv st → w < st.upcoming →
    (∀ r ∈ (twoQueuesBatches par counts st w).2.2, r.computeWait < r.computeSignal)
    ∧ ClockInv (twoQueuesBatches par counts st w).1
    ∧ (twoQueuesBatches par counts st w).2.1 < (twoQueuesBatches par counts st w).1.upcoming := by
  intro counts
  induction counts with
  | nil =>
    intro st w h hw
    exact ⟨by simp [twoQueuesBatches], h, hw⟩
  | cons count rest ih =>
    intro st w h hw
    obtain ⟨hstep, hw', hrec⟩ := clockInv_batchStep par rest.isEmpty count st w h hw
    obtain ⟨ihrecs, ihinv, ihw⟩ :=
      ih (twoQueuesBatchStep par rest.isEmpty count st w).1
        (twoQueuesBatchStep par rest.isEmpty count st w).2.1 hstep hw'
    simp only [twoQueuesBatches]
    refine ⟨?_, ihinv, ihw⟩
    intro r hr
    rcases List.mem_cons.mp hr with h1 | h2
    · subst h1; exact hrec
    · exact ihrecs r h2

lemma clockInv_twoQueuesFrame (n : Nat) (bi : Int) (m : Nat) (st : SchedState)
    (h : ClockInv st) :
    (∀ r ∈ (computeDrawCommandsTwoQueues n bi m st).2, r.computeWait < r.computeSignal)
    ∧ ClockInv (computeDrawCommandsTwoQueues n bi m st).1 := by
  obtain ⟨recs, inv, _⟩ :=
    clockInv_twoQueuesBatches ⟨n % 2, Nat.mod_lt _ (by decide)⟩
      (batchItemCounts m (effectiveBatchSize bi)) st 0 h (by exact h.1)
  exact ⟨recs, inv⟩

lemma clockInv_gctFrame (n : Nat) (bi : Int) (m : Nat) (st : SchedState)
    (h : ClockInv st) : ClockInv (computeDrawCommandsGctOnly n bi m st).1 :=
  h

lemma clockInv_runFrames :
    ∀ (inputs : List FrameInput) (n : Nat) (st : SchedState), ClockInv st →
    (∀ r ∈ (runFrames inputs n st).2.1, r.computeWait < r.computeSignal)
    ∧ ClockInv (runFrames inputs n st).1 := by
  intro inputs
  induction inputs with
  | nil =>
    intro n st h
    exact ⟨by simp [runFrames], h⟩
  | cons f rest ih =>
    intro n st h
    cases f with
    | twoQueues bi m =>
      obtain ⟨hrecs, hinv⟩ := clockInv_twoQueuesFrame n bi m st h
      obtain ⟨ihrecs, ihinv⟩ := ih (n + 1) (computeDrawCommandsTwoQueues n bi m st).1 hinv
      refine ⟨?_, ihinv⟩
      intro r hr
      simp only [runFrames, runFrame] at hr
      rcases List.mem_append.mp hr with h1 | h2
      · exact hrecs r h1
      · exact ihrecs r h2
    | gctOnly bi m =>
      obtain ⟨ihrecs, ihinv⟩ := ih (n + 1) (computeDrawCommandsGctOnly n bi m st).1
        (clockInv_gctFrame n bi m st h)
      refine ⟨?_, ihinv⟩
      intro r hr
      simp only [runFrames, runFrame] at hr
      rcases List.mem_append.mp hr with h1 | h2
      · simp at h1
      · exact ihrecs r h2

lemma clockInv_initState : ClockInv initState := by
  constructor
  · simp [initState]
  · intro i
    simp [initState]

/-- C1: in dual-queue mode, with the pool size MCUBES_CHUNK_COUNT = 12 and the
    effective batch size clamped to at most MCUBES_MAX_CHUNKS_PER_BATCH = 6,
    every batch submitted in any run of frames from the initial state has its
    computed producer wait threshold (computeWaitTimelineValue) strictly below
    the value the batch signals (s_upcomingTimelineValue at submit): the
    assertion computeWaitTimelineValue < s_upcomingTimelineValue at line 499
    never fails in any reachable state. -/
theorem producerWait_lt_signal (inputs : List FrameInput) (n : Nat) :
    ∀ r ∈ (runFrames inputs n initState).2.1, r.computeWait < r.computeSignal :=
  (clockInv_runFrames inputs n initState clockInv_initState).1

/-- Witness for C1: the first batch of a 64-job dual-queue frame from the
    initial state waits on threshold 0 and signals 1. -/
theorem producerWait_lt_signal_witness :
    ((⟨[1, 2, 3, 4, 5, 6], [0, 0, 0, 0, 0, 0], 0, 1, 1, 1⟩ : BatchRecord)
      ∈ (runFrames [FrameInput.twoQueues 6 64] 1 initState).2.1)
    ∧ (⟨[1, 2, 3, 4, 5, 6], [0, 0, 0, 0, 0, 0], 0, 1, 1, 1⟩ : BatchRecord).computeWait
      < (⟨[1, 2, 3, 4, 5, 6], [0, 0, 0, 0, 0, 0], 0, 1, 1, 1⟩ : BatchRecord).computeSignal :=
  ⟨by decide, producerWait_lt_signal [FrameInput.twoQueues 6 64] 1 _ (by decide)⟩

/-! The signal values handed to the submits: one per batch, consecutive. -/

lemma twoQueuesBatches_signals (par : Fin 2) :
    ∀ (counts : List Nat) (st : SchedState) (w : Nat),
    ((twoQueuesBatches par counts st w).2.2).map BatchRecord.computeSignal
        = List.range' st.upcoming counts.length
    ∧ (twoQueuesBatches par counts st w).1.upcoming = st.upcoming + counts.length := by
  intro counts
  induction counts with
  | nil =>
    intro st w
    simp [twoQueuesBatches]
  | cons count rest ih =>
    intro st w
    obtain ⟨ih1, ih2⟩ := ih (twoQueuesBatchStep par rest.isEmpty count st w).1
      (twoQueuesBatchStep par rest.isEmpty count st w).2.1
    simp only [twoQueuesBatches, List.map_cons, List.length_cons]
    constructor
    · rw [List.range'_succ, ← batchStep_upcoming par rest.isEmpty count st w, ← ih1]
      rfl
    · rw [ih2, batchStep_upcoming]
      omega

lemma twoQueuesBatches_bothChannels (par : Fin 2) :
    ∀ (counts : List Nat) (st : SchedState) (w : Nat),
    ∀ r ∈ (twoQueuesBatches par counts st w).2.2,
      r.graphicsSignal = r.computeSignal ∧ r.graphicsWait = r.computeSignal := by
  intro counts
  induction counts with
  | nil =>
    intro st w r hr
    simp [twoQueuesBatches] at hr
  | cons count rest ih =>
    intro st w r hr
    simp only [twoQueuesBatches] at hr
    rcases List.mem_cons.mp hr with h1 | h2
    · subst h1
      rw [batchStep_record]
      exact ⟨rfl, rfl⟩
    · exact ih _ _ r h2

lemma twoQueuesFrame_signals (n : Nat) (bi : Int) (m : Nat) (st : SchedState) :
    ((computeDrawCommandsTwoQueues n bi m st).2).map BatchRecord.computeSignal
        = List.range' st.upcoming (batchCountOf m (effectiveBatchSize bi))
    ∧ (computeDrawCommandsTwoQueues n bi m st).1.upcoming
        = st.upcoming + batchCountOf m (effectiveBatchSize bi) := by
  have h := twoQueuesBatches_signals ⟨n % 2, Nat.mod_lt _ (by decide)⟩
    (batchItemCounts m (effectiveBatchSize bi)) st 0
  rw [batchItemCounts_length] at h
  exact h

lemma runFrames_signals :
    ∀ (inputs : List FrameInput) (n : Nat) (st : SchedState),
    ((runFrames inputs n st).2.1).map BatchRecord.computeSignal
        = List.range' st.upcoming ((inputs.map frameBatchTotal).sum)
    ∧ (runFrames inputs n st).1.upcoming = st.upcoming + (inputs.map frameBatchTotal).sum := by
  intro inputs
  induction inputs with
  | nil =>
    intro n st
    simp [runFrames]
  | cons f rest ih =>
    intro n st
    cases f with
    | twoQueues bi m =>
      obtain ⟨h1, h2⟩ := twoQueuesFrame_signals n bi m st
      obtain ⟨ih1, ih2⟩ := ih (n + 1) (computeDrawCommandsTwoQueues n bi m st).1
      simp only [runFrames, runFrame, List.map_cons, List.sum_cons, frameBatchTotal,
        List.map_append]
      rw [h1, ih1, h2]
      refine ⟨?_, by omega⟩
      have happ := List.range'_append st.upcoming (batchCountOf m (effectiveBatchSize bi))
        ((rest.map frameBatchTotal).sum) 1
      simp only [Nat.one_mul] at happ
      rw [happ, Nat.add_comm]
    | gctOnly bi m =>
      obtain ⟨ih1, ih2⟩ := ih (n + 1) (computeDrawCommandsGctOnly n bi m st).1
      have hup : (computeDrawCommandsGctOnly n bi m st).1.upcoming = st.upcoming := rfl
      rw [hup] at ih1 ih2
      simp only [runFrames, runFrame, List.map_cons, List.sum_cons, frameBatchTotal,
        List.map_append, List.nil_append, List.map_nil, Nat.zero_add]
      exact ⟨ih1, ih2⟩

lemma runFrames_bothChannels :
    ∀ (inputs : List FrameInput) (n : Nat) (st : SchedState),
    ∀ r ∈ (runFrames inputs n st).2.1, r.graphicsSignal = r.computeSignal := by
  intro inputs
  induction inputs with
  | nil =>
    intro n st r hr
    simp [runFrames] at hr
  | cons f rest ih =>
    intro n st r hr
    cases f with
    | twoQueues bi m =>
      simp only [runFrames, runFrame] at hr
      rcases List.mem_append.mp hr with h1 | h2
      · exact (twoQueuesBatches_bothChannels _ _ _ _ r h1).1
      · exact ih _ _ r h2
    | gctOnly bi m =>
      simp only [runFrames, runFrame] at hr
      rcases List.mem_append.mp hr with h1 | h2
      · simp at h1
      · exact ih _ _ r h2

/-! Final chunk timelineValues as a function of the last batch using each chunk. -/

lemma getLast?_cons_of_ne {α : Type} (x : α) {l : List α} (h : l ≠ []) :
    (x :: l).getLast? = l.getLast? := by
  cases l with
  | nil => exact absurd rfl h
  | cons a l => exact List.getLast?_cons_cons

lemma lastUse_cons_some {r : BatchRecord} {recs : List BatchRecord} {i : Nat}
    {r' : BatchRecord} (hsome : lastUse recs i = some r') :
    lastUse (r :: recs) i = some r' := by
  unfold lastUse at *
  rw [List.filter_cons]
  have hne : recs.filter (fun r => decide (i ∈ r.slots)) ≠ [] := by
    intro h
    rw [h] at hsome
    simp at hsome
  split
  · rw [getLast?_cons_of_ne _ hne]
    exact hsome
  · exact hsome

lemma lastUse_cons_none_mem {r : BatchRecord} {recs : List BatchRecord} {i : Nat}
    (hmem : i ∈ r.slots) (hnone : lastUse recs i = none) :
    lastUse (r :: recs) i = some r := by
  unfold lastUse at *
  rw [List.getLast?_eq_none_iff] at hnone
  rw [List.filter_cons, hnone]
  simp [hmem]

lemma lastUse_cons_none_notmem {r : BatchRecord} {recs : List BatchRecord} {i : Nat}
    (hmem : i ∉ r.slots) (hnone : lastUse recs i = none) :
    lastUse (r :: recs) i = none := by
  unfold lastUse at *
  rw [List.getLast?_eq_none_iff] at hnone
  rw [List.filter_cons, hnone]
  simp [hmem]

lemma twoQueuesBatches_lastUse (par : Fin 2) :
    ∀ (counts : List Nat) (st : SchedState) (w : Nat) (i : Nat),
    (twoQueuesBatches par counts st w).1.timelineValues i
      = ((lastUse (twoQueuesBatches par counts st w).2.2 i).map
          BatchRecord.graphicsSignal).getD (st.timelineValues i) := by
  intro counts
  induction counts with
  | nil =>
    intro st w i
    simp [twoQueuesBatches, lastUse]
  | cons count rest ih =>
    intro st w i
    have ihh := ih (twoQueuesBatchStep par rest.isEmpty count st w).1
      (twoQueuesBatchStep par rest.isEmpty count st w).2.1 i
    simp only [twoQueuesBatches]
    rw [ihh]
    have hslots : (twoQueuesBatchStep par rest.isEmpty count st w).2.2.slots
        = (selectChunks count st.chunkIndex).1 := by rw [batchStep_record]
    have htv : (twoQueuesBatchStep par rest.isEmpty count st w).1.timelineValues i
        = if i ∈ (selectChunks count st.chunkIndex).1 then st.upcoming
          else st.timelineValues i := by
      rw [batchStep_timelineValues, writeSlots_apply]
    cases hl : lastUse (twoQueuesBatches par rest
        (twoQueuesBatchStep par rest.isEmpty count st w).1
        (twoQueuesBatchStep par rest.isEmpty count st w).2.1).2.2 i with
    | some r' =>
      simp only [hl, lastUse_cons_some hl, Option.map_some', Option.getD_some]
    | none =>
      by_cases hmem : i ∈ (selectChunks count st.chunkIndex).1
      · rw [lastUse_cons_none_mem (by rw [hslots]; exact hmem) hl]
        simp only [Option.map_some', Option.getD_some, Option.map_none', Option.getD_none]
        rw [htv, if_pos hmem]
        rw [batchStep_record]
      · rw [lastUse_cons_none_notmem (by rw [hslots]; exact hmem) hl]
        simp only [Option.map_none', Option.getD_none]
        rw [htv, if_neg hmem]

lemma twoQueuesBatches_length (par : Fin 2) :
    ∀ (counts : List Nat) (st : SchedState) (w : Nat),
    (twoQueuesBatches par counts st w).2.2.length = counts.length := by
  intro counts
  induction counts with
  | nil => intro st w; rfl
  | cons count rest ih =>
    intro st w
    simp only [twoQueuesBatches, List.length_cons, ih]

lemma gctOnlyBatches_length :
    ∀ (counts : List Nat) (c : Nat), (gctOnlyBatches counts c).2.length = counts.length := by
  intro counts
  induction counts with
  | nil => intro c; rfl
  | cons count rest ih =>
    intro c
    simp only [gctOnlyBatches, List.length_cons, ih]

lemma effectiveBatchSize_bounds (bi : Int) :
    1 ≤ effectiveBatchSize bi ∧ effectiveBatchSize bi ≤ MCUBES_MAX_CHUNKS_PER_BATCH := by
  unfold effectiveBatchSize glmClamp MCUBES_MAX_CHUNKS_PER_BATCH
  omega

/-- C4: in dual-queue mode, a batch writes each used slot's readyClockValue
    (McubesChunk timelineValue) as the value its consumer (graphics) submission
    signals, so after any dual-queue frame each chunk's final timelineValue is
    the graphics signal value of the last batch of the frame that used it, and
    is unchanged when no batch of the frame used it. -/
theorem readyClock_lastUse (n : Nat) (bi : Int) (m : Nat) (st : SchedState) :
    (∀ r ∈ (computeDrawCommandsTwoQueues n bi m st).2, r.graphicsSignal = r.computeSignal)
    ∧ ∀ i, (computeDrawCommandsTwoQueues n bi m st).1.timelineValues i
        = ((lastUse ((computeDrawCommandsTwoQueues n bi m st).2) i).map
            BatchRecord.graphicsSignal).getD (st.timelineValues i) := by
  constructor
  · intro r hr
    exact (twoQueuesBatches_bothChannels _ _ _ _ r hr).1
  · intro i
    exact twoQueuesBatches_lastUse ⟨n % 2, Nat.mod_lt _ (by decide)⟩
      (batchItemCounts m (effectiveBatchSize bi)) st 0 i

/-- Witness for C4: in a 64-job dual-queue frame from the initial state, the
    first batch signals both channels at 1, and chunk 3's final timelineValue
    matches the last batch that used it. -/
theorem readyClock_lastUse_witness :
    ((⟨[1, 2, 3, 4, 5, 6], [0, 0, 0, 0, 0, 0], 0, 1, 1, 1⟩ : BatchRecord)
        ∈ (computeDrawCommandsTwoQueues 1 6 64 initState).2)
    ∧ (⟨[1, 2, 3, 4, 5, 6], [0, 0, 0, 0, 0, 0], 0, 1, 1, 1⟩ : BatchRecord).graphicsSignal
        = (⟨[1, 2, 3, 4, 5, 6], [0, 0, 0, 0, 0, 0], 0, 1, 1, 1⟩ : BatchRecord).computeSignal
    ∧ (computeDrawCommandsTwoQueues 1 6 64 initState).1.timelineValues 3
        = ((lastUse ((computeDrawCommandsTwoQueues 1 6 64 initState).2) 3).map
            BatchRecord.graphicsSignal).getD (initState.timelineValues 3) :=
  ⟨by decide, (readyClock_lastUse 1 6 64 initState).1 _ (by decide),
   (readyClock_lastUse 1 6 64 initState).2 3⟩

/-- C5: the logical clock starts at 1; over any run, the dual-queue batches
    signal the consecutive values u0, u0+1, ... (exactly one increment per
    batch, the same value on both channels), so signal values are strictly
    increasing and never reused; 64 jobs at batch size 6 from the initial state
    give 11 batches and leave the clock at 12. -/
theorem upcomingClock_spec :
    initState.upcoming = 1
    ∧ (∀ (inputs : List FrameInput) (n : Nat) (st : SchedState),
        ((runFrames inputs n st).2.1).map BatchRecord.computeSignal
            = List.range' st.upcoming ((inputs.map frameBatchTotal).sum)
        ∧ (runFrames inputs n st).1.upcoming
            = st.upcoming + (inputs.map frameBatchTotal).sum
        ∧ List.Pairwise (fun a b => a < b)
            (((runFrames inputs n st).2.1).map BatchRecord.computeSignal)
        ∧ ∀ r ∈ (runFrames inputs n st).2.1, r.graphicsSignal = r.computeSignal)
    ∧ (runFrames [FrameInput.twoQueues 6 64] 1 initState).2.1.length = 11
    ∧ (runFrames [FrameInput.twoQueues 6 64] 1 initState).1.upcoming = 12 := by
  refine ⟨rfl, ?_, by decide, by decide⟩
  intro inputs n st
  obtain ⟨h1, h2⟩ := runFrames_signals inputs n st
  refine ⟨h1, h2, ?_, runFrames_bothChannels inputs n st⟩
  rw [h1]
  exact List.pairwise_lt_range' _ _

/-- Witness for C5: over the mixed-mode run, the five dual-queue batches signal
    1, 2, 3, 4, 5, and the first batch signals both channels at 1. -/
theorem upcomingClock_spec_witness :
    (((runFrames mixedModeInputs 1 initState).2.1).map BatchRecord.computeSignal
        = List.range' initState.upcoming ((mixedModeInputs.map frameBatchTotal).sum))
    ∧ ((⟨[1, 2, 3, 4, 5, 6], [0, 0, 0, 0, 0, 0], 0, 1, 1, 1⟩ : BatchRecord)
        ∈ (runFrames mixedModeInputs 1 initState).2.1)
    ∧ (⟨[1, 2, 3, 4, 5, 6], [0, 0, 0, 0, 0, 0], 0, 1, 1, 1⟩ : BatchRecord).graphicsSignal
        = (⟨[1, 2, 3, 4, 5, 6], [0, 0, 0, 0, 0, 0], 0, 1, 1, 1⟩ : BatchRecord).computeSignal :=
  ⟨(upcomingClock_spec.2.1 mixedModeInputs 1 initState).1, by decide,
   (upcomingClock_spec.2.1 mixedModeInputs 1 initState).2.2.2 _ (by decide)⟩

/-- C3: for every job list of length M ≥ 1 and every effective batch size B in
    [1, 6] (below uint32 truncation), the shared partition used by both
    schedulers forms exactly ceil(M/B) = (M+B-1)/B batches; batch b holds the
    items with indices in [b*B, min(b*B+B, M)); the concatenation of the
    batches is the original job list (each item exactly once, in order), every
    non-final batch has exactly B items and every batch between 1 and B items;
    both schedulers submit exactly that many batches. -/
theorem batchPartition_spec {α : Type} (jobs : List α) (B : Nat) (hM : 1 ≤ jobs.length)
    (hB1 : 1 ≤ B) (hB6 : B ≤ MCUBES_MAX_CHUNKS_PER_BATCH)
    (hw : jobs.length + B ≤ 2 ^ 32) :
    (frameBatches jobs B).length = (jobs.length + B - 1) / B
    ∧ (frameBatches jobs B).flatten = jobs
    ∧ (∀ b, b < batchCountOf jobs.length B →
        (frameBatches jobs B).get? b
          = some ((jobs.drop (b * B)).take (min (b * B + B) jobs.length - b * B)))
    ∧ (∀ b, b + 1 < batchCountOf jobs.length B →
        ((frameBatches jobs B).get? b).map List.length = some B)
    ∧ (∀ l ∈ frameBatches jobs B, 1 ≤ l.length ∧ l.length ≤ B)
    ∧ (∀ (n : Nat) (bi : Int) (st : SchedState), effectiveBatchSize bi = B →
        (computeDrawCommandsTwoQueues n bi jobs.length st).2.length
          = (jobs.length + B - 1) / B)
    ∧ (∀ (n : Nat) (bi : Int) (st : SchedState), effectiveBatchSize bi = B →
        (computeDrawCommandsGctOnly n bi jobs.length st).2.length
          = (jobs.length + B - 1) / B) := by
  have hw' : jobs.length + B - 1 < 2 ^ 32 := by omega
  have hcnt : batchCountOf jobs.length B = (jobs.length + B - 1) / B := batchCountOf_eq hw'
  refine ⟨?_, frameBatches_flatten jobs hB1 hw', ?_, ?_, frameBatches_sizes jobs hB1,
    ?_, ?_⟩
  · rw [frameBatches_length, hcnt]
  · intro b hb
    exact frameBatches_get jobs B b hb
  · intro b hb
    exact frameBatches_full jobs hB1 hb
  · intro n bi st hbi
    show (twoQueuesBatches _ (batchItemCounts jobs.length (effectiveBatchSize bi)) st 0).2.2.length = _
    rw [twoQueuesBatches_length, batchItemCounts_length, hbi, hcnt]
  · intro n bi st hbi
    show (gctOnlyBatches (batchItemCounts jobs.length (effectiveBatchSize bi))
      st.chunkIndex).2.length = _
    rw [gctOnlyBatches_length, batchItemCounts_length, hbi, hcnt]

/-- Witness for C3: 64 jobs at batch size 6 concatenate back to the job list
    and form ceil(64/6) = 11 batches. -/
theorem batchPartition_spec_witness :
    (1 ≤ (List.range 64).length)
    ∧ ((frameBatches (List.range 64) 6).flatten = List.range 64)
    ∧ (frameBatches (List.range 64) 6).length = ((List.range 64).length + 6 - 1) / 6 :=
  ⟨by decide,
   (batchPartition_spec (List.range 64) 6 (by decide) (by decide) (by decide) (by decide)).2.1,
   (batchPartition_spec (List.range 64) 6 (by decide) (by decide) (by decide) (by decide)).1⟩

/-- C6 counterexample: a supplied batch size of 7 = MCUBES_CHUNK_COUNT/2 + 1 is
    not rejected as a configuration error: the single-queue scheduler's only
    rejection mechanism, the assertion batchSize ≤ MCUBES_CHUNK_COUNT/2 at line
    639, holds (does not fire) because the supplied 7 is silently clamped to 6
    before the batch count is computed. -/
theorem batchSizeSeven_not_rejected :
    effectiveBatchSize 7 = 6 ∧ gctBatchSizeAssertOk 7 = true := by decide

/-- C6 amended: in single-queue mode every configured batch-size value yields
    an effective batch size B with 2*B ≤ MCUBES_CHUNK_COUNT and the structural
    safety assertion batchSize ≤ MCUBES_CHUNK_COUNT/2 never fails; a supplied
    batch size of 7 is silently clamped to 6 (never used as 7) rather than
    rejected as a configuration error. -/
theorem gct_batchSize_structural_safety (bi : Int) :
    2 * effectiveBatchSize bi ≤ MCUBES_CHUNK_COUNT
    ∧ gctBatchSizeAssertOk bi = true
    ∧ effectiveBatchSize 7 = 6 := by
  obtain ⟨h1, h2⟩ := effectiveBatchSize_bounds bi
  refine ⟨?_, ?_, by decide⟩
  · unfold MCUBES_CHUNK_COUNT
    unfold MCUBES_MAX_CHUNKS_PER_BATCH at h2
    omega
  · unfold gctBatchSizeAssertOk
    simp only [decide_eq_true_eq]
    unfold MCUBES_CHUNK_COUNT
    unfold MCUBES_MAX_CHUNKS_PER_BATCH at h2
    omega

/-- C9: for every GUI-supplied int batch size, including zero and negative
    values, both schedulers' clamp produces an effective batch size in [1, 6]:
    the batch-count division never divides by zero and every batch's chunk
    count fits the six-entry chunkPointerArray. -/
theorem batchSize_clamp_safety (bi : Int) (m : Nat) :
    1 ≤ effectiveBatchSize bi
    ∧ effectiveBatchSize bi ≤ MCUBES_MAX_CHUNKS_PER_BATCH
    ∧ effectiveBatchSize bi ≠ 0
    ∧ ∀ x ∈ batchItemCounts m (effectiveBatchSize bi), x ≤ MCUBES_MAX_CHUNKS_PER_BATCH := by
  obtain ⟨h1, h2⟩ := effectiveBatchSize_bounds bi
  refine ⟨h1, h2, by omega, ?_⟩
  intro x hx
  have := mem_batchItemCounts h1 hx
  omega

/-- Witness for C9: the negative batch size -5 converts to a huge uint32 and
    clamps to 6; the last batch of 64 jobs holds 4 ≤ 6 items. -/
theorem batchSize_clamp_safety_witness :
    (4 ∈ batchItemCounts 64 (effectiveBatchSize (-5)))
    ∧ 4 ≤ MCUBES_MAX_CHUNKS_PER_BATCH
    ∧ 1 ≤ effectiveBatchSize (-5) :=
  ⟨by decide, (batchSize_clamp_safety (-5) 64).2.2.2 4 (by decide),
   (batchSize_clamp_safety (-5) 64).1⟩

/-- C7: computeReplaceEquation reports success as a boolean; when shader
    compilation fails it returns false and leaves the active compute pipeline
    (s_mcubesImagePipeline) untouched; the main-loop GUI-event block then
    records the failure in m_compileFailure, never touches the scheduler
    state (so the scheduler resumes with the previous kernel), and performs a
    device-idle wait immediately before every replacement attempt. -/
theorem replaceEquation_failure_effects (uq wq ws vs cf : Bool)
    (mk : Nat → Nat) (comp : ComputeState) (sched : SchedState) :
    computeReplaceEquation none mk comp = (false, comp)
    ∧ (mainLoopGuiEvents uq wq ws vs cf none mk comp sched).sched = sched
    ∧ (ws = true →
        (mainLoopGuiEvents uq wq ws vs cf none mk comp sched).comp = comp
        ∧ (mainLoopGuiEvents uq wq ws vs cf none mk comp sched).compileFailure = true)
    ∧ ((mainLoopGuiEvents uq wq ws vs cf none mk comp sched).actions.head?
        ≠ some HostAction.replaceEquation)
    ∧ List.Chain'
        (fun a b => b = HostAction.replaceEquation → a = HostAction.deviceWaitIdle)
        (mainLoopGuiEvents uq wq ws vs cf none mk comp sched).actions := by
  refine ⟨rfl, ?_, ?_, ?_, ?_⟩
  · cases ws <;> rfl
  · intro hws
    subst hws
    exact ⟨rfl, rfl⟩
  · cases ws <;> cases vs <;> cases uq <;> cases wq <;>
      simp [mainLoopGuiEvents, computeReplaceEquation, setupMcubesImagePipeline]
  · cases ws <;> cases vs <;> cases uq <;> cases wq <;>
      simp [mainLoopGuiEvents, computeReplaceEquation, setupMcubesImagePipeline,
        List.chain'_cons', List.Chain']

/-- Witness for C7: with a pending equation change and a failed compile, the
    pipeline handle 7 and the initial scheduler state are returned unchanged,
    the failure flag is set, and the action list is device-idle wait then
    replacement. -/
theorem replaceEquation_failure_effects_witness :
    computeReplaceEquation none (fun h => h + 1) ⟨7⟩ = (false, ⟨7⟩)
    ∧ (mainLoopGuiEvents true true true false false none (fun h => h + 1) ⟨7⟩
        initState).sched = initState
    ∧ (mainLoopGuiEvents true true true false false none (fun h => h + 1) ⟨7⟩
        initState).comp = ⟨7⟩
    ∧ (mainLoopGuiEvents true true true false false none (fun h => h + 1) ⟨7⟩
        initState).compileFailure = true :=
  ⟨(replaceEquation_failure_effects true true true false false (fun h => h + 1) ⟨7⟩
      initState).1,
   (replaceEquation_failure_effects true true true false false (fun h => h + 1) ⟨7⟩
      initState).2.1,
   ((replaceEquation_failure_effects true true true false false (fun h => h + 1) ⟨7⟩
      initState).2.2.1 rfl).1,
   ((replaceEquation_failure_effects true true true false false (fun h => h + 1) ⟨7⟩
      initState).2.2.1 rfl).2⟩

/-! The assigned ring-slot sequence in closed form. -/

lemma map_mod_range_append (c n s : Nat) :
    (List.range n).map (fun k => (c + 1 + k) % MCUBES_CHUNK_COUNT)
      ++ (List.range s).map
          (fun k => ((c + n) % MCUBES_CHUNK_COUNT + 1 + k) % MCUBES_CHUNK_COUNT)
    = (List.range (n + s)).map (fun k => (c + 1 + k) % MCUBES_CHUNK_COUNT) := by
  rw [List.range_add, List.map_append, List.map_map]
  congr 1
  refine List.map_congr_left ?_
  intro a _
  simp only [Function.comp_apply, MCUBES_CHUNK_COUNT]
  omega

lemma gctOnlyBatches_flat :
    ∀ (counts : List Nat) (c : Nat), c < MCUBES_CHUNK_COUNT →
    (gctOnlyBatches counts c).2.flatten
        = (List.range counts.sum).map (fun k => (c + 1 + k) % MCUBES_CHUNK_COUNT)
    ∧ (gctOnlyBatches counts c).1 = (c + counts.sum) % MCUBES_CHUNK_COUNT := by
  intro counts
  induction counts with
  | nil =>
    intro c hc
    simp [gctOnlyBatches, Nat.mod_eq_of_lt hc]
  | cons count rest ih =>
    intro c hc
    have h1 : (selectChunks count c).1
        = (List.range count).map (fun k => (c + 1 + k) % MCUBES_CHUNK_COUNT) := by
      rw [selectChunks_eq count c hc]
    have h2 : (selectChunks count c).2 = (c + count) % MCUBES_CHUNK_COUNT := by
      rw [selectChunks_eq count c hc]
    have hcur : (c + count) % MCUBES_CHUNK_COUNT < MCUBES_CHUNK_COUNT :=
      Nat.mod_lt _ (by simp [MCUBES_CHUNK_COUNT])
    obtain ⟨ih1, ih2⟩ := ih ((c + count) % MCUBES_CHUNK_COUNT) hcur
    simp only [gctOnlyBatches, List.flatten_cons, List.sum_cons]
    rw [h2, ih1, ih2, h1]
    constructor
    · exact map_mod_range_append c count rest.sum
    · simp only [MCUBES_CHUNK_COUNT]
      omega

lemma twoQueuesBatches_slots (par : Fin 2) :
    ∀ (counts : List Nat) (st : SchedState) (w : Nat),
    ((twoQueuesBatches par counts st w).2.2).map BatchRecord.slots
        = (gctOnlyBatches counts st.chunkIndex).2
    ∧ (twoQueuesBatches par counts st w).1.chunkIndex
        = (gctOnlyBatches counts st.chunkIndex).1 := by
  intro counts
  induction counts with
  | nil =>
    intro st w
    exact ⟨rfl, rfl⟩
  | cons count rest ih =>
    intro st w
    obtain ⟨ih1, ih2⟩ := ih (twoQueuesBatchStep par rest.isEmpty count st w).1
      (twoQueuesBatchStep par rest.isEmpty count st w).2.1
    rw [batchStep_chunkIndex] at ih1 ih2
    simp only [twoQueuesBatches, gctOnlyBatches, List.map_cons]
    exact ⟨by rw [ih1]; rfl, by rw [ih2]⟩

lemma gctFrame_slots (n : Nat) (bi : Int) (m : Nat) (st : SchedState)
    (hc : st.chunkIndex < MCUBES_CHUNK_COUNT)
    (hm : m + MCUBES_MAX_CHUNKS_PER_BATCH ≤ 2 ^ 32) :
    ((computeDrawCommandsGctOnly n bi m st).2).flatten
        = (List.range m).map (fun k => (st.chunkIndex + 1 + k) % MCUBES_CHUNK_COUNT)
    ∧ (computeDrawCommandsGctOnly n bi m st).1.chunkIndex
        = (st.chunkIndex + m) % MCUBES_CHUNK_COUNT := by
  obtain ⟨hB1, hB6⟩ := effectiveBatchSize_bounds bi
  have hsum : (batchItemCounts m (effectiveBatchSize bi)).sum = m := by
    refine batchItemCounts_sum hB1 ?_
    unfold MCUBES_MAX_CHUNKS_PER_BATCH at hB6 hm
    omega
  have h := gctOnlyBatches_flat (batchItemCounts m (effectiveBatchSize bi))
    st.chunkIndex hc
  rw [hsum] at h
  exact h

lemma twoQueuesFrame_slots (n : Nat) (bi : Int) (m : Nat) (st : SchedState)
    (hc : st.chunkIndex < MCUBES_CHUNK_COUNT)
    (hm : m + MCUBES_MAX_CHUNKS_PER_BATCH ≤ 2 ^ 32) :
    (((computeDrawCommandsTwoQueues n bi m st).2).map BatchRecord.slots).flatten
        = (List.range m).map (fun k => (st.chunkIndex + 1 + k) % MCUBES_CHUNK_COUNT)
    ∧ (computeDrawCommandsTwoQueues n bi m st).1.chunkIndex
        = (st.chunkIndex + m) % MCUBES_CHUNK_COUNT := by
  obtain ⟨hB1, hB6⟩ := effectiveBatchSize_bounds bi
  have hsum : (batchItemCounts m (effectiveBatchSize bi)).sum = m := by
    refine batchItemCounts_sum hB1 ?_
    unfold MCUBES_MAX_CHUNKS_PER_BATCH at hB6 hm
    omega
  obtain ⟨hflat, hcurs⟩ := gctOnlyBatches_flat (batchItemCounts m (effectiveBatchSize bi))
    st.chunkIndex hc
  obtain ⟨hs1, hs2⟩ := twoQueuesBatches_slots ⟨n % 2, Nat.mod_lt _ (by decide)⟩
    (batchItemCounts m (effectiveBatchSize bi)) st 0
  rw [hsum] at hflat hcurs
  constructor
  · show (((twoQueuesBatches _ _ st 0).2.2).map BatchRecord.slots).flatten = _
    rw [hs1, hflat]
  · show (twoQueuesBatches _ _ st 0).1.chunkIndex = _
    rw [hs2, hcurs]

lemma runFrames_slots :
    ∀ (inputs : List FrameInput) (n : Nat) (st : SchedState),
      st.chunkIndex < MCUBES_CHUNK_COUNT →
      (∀ f ∈ inputs, FrameInput.jobCount f + MCUBES_MAX_CHUNKS_PER_BATCH ≤ 2 ^ 32) →
    (runFrames inputs n st).2.2
        = (List.range (totalJobCount inputs)).map
            (fun k => (st.chunkIndex + 1 + k) % MCUBES_CHUNK_COUNT)
    ∧ (runFrames inputs n st).1.chunkIndex
        = (st.chunkIndex + totalJobCount inputs) % MCUBES_CHUNK_COUNT := by
  intro inputs
  induction inputs with
  | nil =>
    intro n st hc _
    simp [runFrames, totalJobCount, Nat.mod_eq_of_lt hc]
  | cons f rest ih =>
    intro n st hc hw
    have hwf := hw f (List.mem_cons_self f rest)
    have hwr : ∀ g ∈ rest, FrameInput.jobCount g + MCUBES_MAX_CHUNKS_PER_BATCH ≤ 2 ^ 32 :=
      fun g hg => hw g (List.mem_cons_of_mem f hg)
    have htot : totalJobCount (f :: rest) = f.jobCount + totalJobCount rest := by
      simp [totalJobCount]
    cases f with
    | twoQueues bi m =>
      obtain ⟨hf1, hf2⟩ := twoQueuesFrame_slots n bi m st hc hwf
      have hc' : (computeDrawCommandsTwoQueues n bi m st).1.chunkIndex
          < MCUBES_CHUNK_COUNT := by
        rw [hf2]
        exact Nat.mod_lt _ (by simp [MCUBES_CHUNK_COUNT])
      obtain ⟨ih1, ih2⟩ := ih (n + 1) (computeDrawCommandsTwoQueues n bi m st).1 hc' hwr
      rw [hf2] at ih1 ih2
      simp only [runFrames, runFrame, htot]
      constructor
      · rw [hf1, ih1, FrameInput.jobCount]
        exact map_mod_range_append st.chunkIndex m (totalJobCount rest)
      · rw [ih2, FrameInput.jobCount]
        simp only [MCUBES_CHUNK_COUNT]
        omega
    | gctOnly bi m =>
      obtain ⟨hf1, hf2⟩ := gctFrame_slots n bi m st hc hwf
      have hc' : (computeDrawCommandsGctOnly n bi m st).1.chunkIndex
          < MCUBES_CHUNK_COUNT := by
        rw [hf2]
        exact Nat.mod_lt _ (by simp [MCUBES_CHUNK_COUNT])
      obtain ⟨ih1, ih2⟩ := ih (n + 1) (computeDrawCommandsGctOnly n bi m st).1 hc' hwr
      rw [hf2] at ih1 ih2
      simp only [runFrames, runFrame, htot]
      constructor
      · rw [hf1, ih1, FrameInput.jobCount]
        exact map_mod_range_append st.chunkIndex m (totalJobCount rest)
      · rw [ih2, FrameInput.jobCount]
        simp only [MCUBES_CHUNK_COUNT]
        omega

lemma chain'_succ_mod (c T : Nat) :
    List.Chain' (fun a b => b = (a + 1) % MCUBES_CHUNK_COUNT)
      ((List.range T).map (fun k => (c + 1 + k) % MCUBES_CHUNK_COUNT)) := by
  rw [List.chain'_map]
  cases T with
  | zero => simp
  | succ t =>
    rw [List.chain'_range_succ]
    intro m _
    simp only [Nat.succ_eq_add_one, MCUBES_CHUNK_COUNT]
    omega

/-- C8: slot assignment is round-robin with wraparound in both scheduler
    modes: over any run of frames from a cursor c < MCUBES_CHUNK_COUNT (below
    uint32 job-count truncation), the sequence of assigned chunk indices is
    (c + 1 + k) % MCUBES_CHUNK_COUNT for k = 0, 1, ..., so every assigned index
    equals the previous one plus one modulo MCUBES_CHUNK_COUNT — the indices
    cycle through the twelve slots repeatedly without gaps or skips, within
    batches, across batches, across frames and across mode switches. -/
theorem roundRobin_slot_sequence (inputs : List FrameInput) (n : Nat) (st : SchedState)
    (hc : st.chunkIndex < MCUBES_CHUNK_COUNT)
    (hw : ∀ f ∈ inputs, FrameInput.jobCount f + MCUBES_MAX_CHUNKS_PER_BATCH ≤ 2 ^ 32) :
    (runFrames inputs n st).2.2
        = (List.range (totalJobCount inputs)).map
            (fun k => (st.chunkIndex + 1 + k) % MCUBES_CHUNK_COUNT)
    ∧ List.Chain' (fun a b => b = (a + 1) % MCUBES_CHUNK_COUNT)
        ((runFrames inputs n st).2.2) := by
  obtain ⟨h1, _⟩ := runFrames_slots inputs n st hc hw
  refine ⟨h1, ?_⟩
  rw [h1]
  exact chain'_succ_mod st.chunkIndex (totalJobCount inputs)

/-- Witness for C8: 64 jobs at batch size 6 from the initial state (cursor 0)
    are assigned the slots 1, 2, ..., 11, 0, 1, ... in strict round-robin
    order. -/
theorem roundRobin_slot_sequence_witness :
    ((runFrames [FrameInput.twoQueues 6 64] 1 initState).2.2
        = (List.range (totalJobCount [FrameInput.twoQueues 6 64])).map
            (fun k => (initState.chunkIndex + 1 + k) % MCUBES_CHUNK_COUNT)
    ∧ List.Chain' (fun a b => b = (a + 1) % MCUBES_CHUNK_COUNT)
        ((runFrames [FrameInput.twoQueues 6 64] 1 initState).2.2)) :=
  roundRobin_slot_sequence [FrameInput.twoQueues 6 64] 1 initState (by decide) (by decide)

/-- C10: a single-queue frame (computeDrawCommandsGctOnly) leaves the logical
    clock s_upcomingTimelineValue, every chunk timelineValue, both per-frame
    pool wait timeline value arrays and the compute command-buffer lists
    unchanged; of the modelled scheduler state it mutates only the ring cursor
    s_mcubesChunkIndex (advanced by the job count modulo MCUBES_CHUNK_COUNT)
    and the graphics command-buffer list of the frame parity, so a later
    dual-queue frame resumes from exactly the clock and slot state it last
    left. -/
theorem gctOnly_frame_state_effect (n : Nat) (bi : Int) (m : Nat) (st : SchedState)
    (hc : st.chunkIndex < MCUBES_CHUNK_COUNT)
    (hm : m + MCUBES_MAX_CHUNKS_PER_BATCH ≤ 2 ^ 32) :
    (computeDrawCommandsGctOnly n bi m st).1.upcoming = st.upcoming
    ∧ (computeDrawCommandsGctOnly n bi m st).1.timelineValues = st.timelineValues
    ∧ (computeDrawCommandsGctOnly n bi m st).1.computePoolWaitValues
        = st.computePoolWaitValues
    ∧ (computeDrawCommandsGctOnly n bi m st).1.graphicsPoolWaitValues
        = st.graphicsPoolWaitValues
    ∧ (computeDrawCommandsGctOnly n bi m st).1.computeCmdBufCounts
        = st.computeCmdBufCounts
    ∧ (computeDrawCommandsGctOnly n bi m st).1.chunkIndex
        = (st.chunkIndex + m) % MCUBES_CHUNK_COUNT :=
  ⟨rfl, rfl, rfl, rfl, rfl, (gctFrame_slots n bi m st hc hm).2⟩

/-- Witness for C10: a 64-job single-queue frame on the initial state keeps the
    clock at 1, all timeline values and pool waits intact, and moves the cursor
    to 64 % 12 = 4. -/
theorem gctOnly_frame_state_effect_witness :
    (computeDrawCommandsGctOnly 2 6 64 initState).1.upcoming = initState.upcoming
    ∧ (computeDrawCommandsGctOnly 2 6 64 initState).1.timelineValues
        = initState.timelineValues
    ∧ (computeDrawCommandsGctOnly 2 6 64 initState).1.computePoolWaitValues
        = initState.computePoolWaitValues
    ∧ (computeDrawCommandsGctOnly 2 6 64 initState).1.graphicsPoolWaitValues
        = initState.graphicsPoolWaitValues
    ∧ (computeDrawCommandsGctOnly 2 6 64 initState).1.computeCmdBufCounts
        = initState.computeCmdBufCounts
    ∧ (computeDrawCommandsGctOnly 2 6 64 initState).1.chunkIndex
        = (initState.chunkIndex + 64) % MCUBES_CHUNK_COUNT :=
  gctOnly_frame_state_effect 2 6 64 initState (by decide) (by decide)

/-! Further max-fold facts needed for the per-batch threshold analysis. -/

lemma foldl_max_comm (l : List Nat) : ∀ a : Nat, l.foldl max a = max a (l.foldl max 0) := by
  induction l with
  | nil => intro a; simp
  | cons x l ih =>
    intro a
    simp only [List.foldl_cons]
    rw [ih (max a x), ih (max 0 x)]
    omega

lemma le_foldl_max_of_mem {l : List Nat} {x : Nat} (hx : x ∈ l) : x ≤ l.foldl max 0 := by
  induction l with
  | nil => cases hx
  | cons y l ih =>
    rcases List.mem_cons.mp hx with h | h
    · subst h
      rw [List.foldl_cons, foldl_max_comm]
      omega
    · rw [List.foldl_cons, foldl_max_comm]
      have := ih h
      omega

lemma foldl_max_eq_of_le {l : List Nat} {w x : Nat} (hx : x ∈ l) (hwx : w ≤ x) :
    l.foldl max w = l.foldl max 0 := by
  rw [foldl_max_comm]
  have := le_foldl_max_of_mem hx
  omega

set_option maxRecDepth 8192 in
/-- C2 counterexample: in the mixed-mode run (a dual-queue frame of 18 jobs, a
    single-queue frame of 6 jobs, then a dual-queue frame of 12 jobs, batch
    size 6, from the initial state), the fifth dual-queue batch is submitted
    with producer wait threshold 3 — the per-frame running maximum of
    computeWaitTimelineValue — although the maximum readyClockValue over
    exactly its own slots, read before the batch overwrites them, is 2. -/
theorem producerWait_running_max_cex :
    (mixedModeTrace.get? 4).map BatchRecord.computeWait = some 3
    ∧ (mixedModeTrace.get? 4).map specBatchProducerWaitThreshold = some 2 := by decide

lemma ringInv_batchStep (par : Fin 2) (l : Bool) (count : Nat) (st : SchedState) (w : Nat)
    (hinv : RingInv st)
    (hw : w ≤ st.timelineValues ((st.chunkIndex + 1) % MCUBES_CHUNK_COUNT))
    (hc1 : 1 ≤ count) (hc6 : count ≤ MCUBES_MAX_CHUNKS_PER_BATCH) :
    (twoQueuesBatchStep par l count st w).2.2.computeWait
        = specBatchProducerWaitThreshold (twoQueuesBatchStep par l count st w).2.2
    ∧ RingInv (twoQueuesBatchStep par l count st w).1
    ∧ (twoQueuesBatchStep par l count st w).2.1
        ≤ (twoQueuesBatchStep par l count st w).1.timelineValues
            (((twoQueuesBatchStep par l count st w).1.chunkIndex + 1)
              % MCUBES_CHUNK_COUNT) := by
  obtain ⟨hc, hmono, hlt⟩ := hinv
  simp only [MCUBES_CHUNK_COUNT] at hc hmono hw
  simp only [MCUBES_MAX_CHUNKS_PER_BATCH] at hc6
  have h1 : (selectChunks count st.chunkIndex).1
      = (List.range count).map (fun k => (st.chunkIndex + 1 + k) % 12) := by
    rw [selectChunks_eq count st.chunkIndex (by simpa [MCUBES_CHUNK_COUNT] using hc)]
    simp only [MCUBES_CHUNK_COUNT]
  have h2 : (selectChunks count st.chunkIndex).2 = (st.chunkIndex + count) % 12 := by
    rw [selectChunks_eq count st.chunkIndex (by simpa [MCUBES_CHUNK_COUNT] using hc)]
    simp only [MCUBES_CHUNK_COUNT]
  have hwrit : ∀ d, 1 ≤ d → d ≤ 12 →
      ((st.chunkIndex + count + d) % 12 ∈ (selectChunks count st.chunkIndex).1
        ↔ 12 < count + d) := by
    intro d hd1 hd2
    rw [h1]
    simp only [List.mem_map, List.mem_range]
    constructor
    · rintro ⟨k, hk, he⟩
      by_contra hnd
      omega
    · intro h12
      exact ⟨count + d - 13, by omega, by omega⟩
  have htv' : ∀ i, (twoQueuesBatchStep par l count st w).1.timelineValues i
      = if i ∈ (selectChunks count st.chunkIndex).1 then st.upcoming
        else st.timelineValues i := by
    intro i
    rw [batchStep_timelineValues, writeSlots_apply]
  have hhead : st.timelineValues ((st.chunkIndex + 1) % 12)
      ∈ (selectChunks count st.chunkIndex).1.map st.timelineValues := by
    refine List.mem_map.mpr ⟨(st.chunkIndex + 1) % 12, ?_, rfl⟩
    rw [h1]
    simp only [List.mem_map, List.mem_range]
    exact ⟨0, by omega, by omega⟩
  simp only [RingInv, MCUBES_CHUNK_COUNT]
  refine ⟨?_, ⟨?_, ?_, ?_⟩, ?_⟩
  · rw [batchStep_record]
    simp only [specBatchProducerWaitThreshold]
    exact foldl_max_eq_of_le hhead hw
  · rw [batchStep_chunkIndex, h2]
    exact Nat.mod_lt _ (by omega)
  · intro j k hj hjk hk
    rw [batchStep_chunkIndex, h2]
    have pj : ((st.chunkIndex + count) % 12 + j) % 12
        = (st.chunkIndex + count + j) % 12 := by omega
    have pk : ((st.chunkIndex + count) % 12 + k) % 12
        = (st.chunkIndex + count + k) % 12 := by omega
    rw [pj, pk, htv' _, htv' _]
    by_cases hj12 : count + j ≤ 12
    · have hjn : (st.chunkIndex + count + j) % 12 ∉ (selectChunks count st.chunkIndex).1 := by
        rw [hwrit j (by omega) (by omega)]
        omega
      rw [if_neg hjn]
      by_cases hk12 : count + k ≤ 12
      · have hkn : (st.chunkIndex + count + k) % 12
            ∉ (selectChunks count st.chunkIndex).1 := by
          rw [hwrit k (by omega) (by omega)]
          omega
        rw [if_neg hkn]
        have e1 : (st.chunkIndex + count + j) % 12
            = (st.chunkIndex + (count + j)) % 12 := by omega
        have e2 : (st.chunkIndex + count + k) % 12
            = (st.chunkIndex + (count + k)) % 12 := by omega
        rw [e1, e2]
        exact hmono (count + j) (count + k) (by omega) (by omega) (by omega)
      · have hkm : (st.chunkIndex + count + k) % 12
            ∈ (selectChunks count st.chunkIndex).1 :=
          (hwrit k (by omega) (by omega)).mpr (by omega)
        rw [if_pos hkm]
        exact Nat.le_of_lt (hlt _)
    · have hjm : (st.chunkIndex + count + j) % 12
          ∈ (selectChunks count st.chunkIndex).1 :=
        (hwrit j (by omega) (by omega)).mpr (by omega)
      have hkm : (st.chunkIndex + count + k) % 12
          ∈ (selectChunks count st.chunkIndex).1 :=
        (hwrit k (by omega) (by omega)).mpr (by omega)
      rw [if_pos hjm, if_pos hkm]
  · intro i
    rw [htv' i, batchStep_upcoming]
    by_cases h : i ∈ (selectChunks count st.chunkIndex).1
    · rw [if_pos h]
      omega
    · rw [if_neg h]
      have := hlt i
      omega
  · rw [batchStep_w, batchStep_chunkIndex, h2]
    have p1 : ((st.chunkIndex + count) % 12 + 1) % 12
        = (st.chunkIndex + count + 1) % 12 := by omega
    rw [p1, htv' _]
    have hnot : (st.chunkIndex + count + 1) % 12
        ∉ (selectChunks count st.chunkIndex).1 := by
      rw [hwrit 1 (by omega) (by omega)]
      omega
    rw [if_neg hnot]
    refine foldl_max_le _ _ _ ?_ ?_
    · have e2 : (st.chunkIndex + count + 1) % 12
          = (st.chunkIndex + (count + 1)) % 12 := by omega
      have hstep := hmono 1 (count + 1) (by omega) (by omega) (by omega)
      rw [e2]
      omega
    · intro x hx
      obtain ⟨s, hs, rfl⟩ := List.mem_map.mp hx
      rw [h1] at hs
      simp only [List.mem_map, List.mem_range] at hs
      obtain ⟨k', hk', rfl⟩ := hs
      have e1 : (st.chunkIndex + 1 + k') % 12 = (st.chunkIndex + (k' + 1)) % 12 := by omega
      have e2 : (st.chunkIndex + count + 1) % 12
          = (st.chunkIndex + (count + 1)) % 12 := by omega
      rw [e1, e2]
      exact hmono (k' + 1) (count + 1) (by omega) (by omega) (by omega)

lemma ringInv_twoQueuesBatches (par : Fin 2) :
    ∀ (counts : List Nat) (st : SchedState) (w : Nat), RingInv st →
      w ≤ st.timelineValues ((st.chunkIndex + 1) % MCUBES_CHUNK_COUNT) →
      (∀ x ∈ counts, 1 ≤ x ∧ x ≤ MCUBES_MAX_CHUNKS_PER_BATCH) →
    (∀ r ∈ (twoQueuesBatches par counts st w).2.2,
        r.computeWait = specBatchProducerWaitThreshold r)
    ∧ RingInv (twoQueuesBatches par counts st w).1 := by
  intro counts
  induction counts with
  | nil =>
    intro st w h _ _
    exact ⟨by simp [twoQueuesBatches], h⟩
  | cons count rest ih =>
    intro st w h hw hcounts
    have hcount := hcounts count (List.mem_cons_self count rest)
    obtain ⟨hrec, hinv', hw'⟩ :=
      ringInv_batchStep par rest.isEmpty count st w h hw hcount.1 hcount.2
    obtain ⟨ihrecs, ihinv⟩ := ih (twoQueuesBatchStep par rest.isEmpty count st w).1
      (twoQueuesBatchStep par rest.isEmpty count st w).2.1 hinv' hw'
      (fun x hx => hcounts x (List.mem_cons_of_mem _ hx))
    simp only [twoQueuesBatches]
    refine ⟨?_, ihinv⟩
    intro r hr
    rcases List.mem_cons.mp hr with h1 | h2
    · subst h1
      exact hrec
    · exact ihrecs r h2

lemma ringInv_twoQueuesFrame (n : Nat) (bi : Int) (m : Nat) (st : SchedState)
    (h : RingInv st) :
    (∀ r ∈ (computeDrawCommandsTwoQueues n bi m st).2,
        r.computeWait = specBatchProducerWaitThreshold r)
    ∧ RingInv (computeDrawCommandsTwoQueues n bi m st).1 := by
  obtain ⟨hB1, hB6⟩ := effectiveBatchSize_bounds bi
  have hcounts : ∀ x ∈ batchItemCounts m (effectiveBatchSize bi),
      1 ≤ x ∧ x ≤ MCUBES_MAX_CHUNKS_PER_BATCH := by
    intro x hx
    have := mem_batchItemCounts hB1 hx
    omega
  exact ringInv_twoQueuesBatches ⟨n % 2, Nat.mod_lt _ (by decide)⟩
    (batchItemCounts m (effectiveBatchSize bi)) st 0 h (Nat.zero_le _) hcounts

lemma ringInv_initState : RingInv initState := by
  refine ⟨by simp [initState, MCUBES_CHUNK_COUNT], ?_, ?_⟩
  · intro j k _ _ _
    simp [initState]
  · intro i
    simp [initState]

lemma ringInv_runFrames :
    ∀ (inputs : List FrameInput) (n : Nat) (st : SchedState), RingInv st →
      (∀ f ∈ inputs, f.isTwoQueues = true) →
    (∀ r ∈ (runFrames inputs n st).2.1,
        r.computeWait = specBatchProducerWaitThreshold r)
    ∧ RingInv (runFrames inputs n st).1 := by
  intro inputs
  induction inputs with
  | nil =>
    intro n st h _
    exact ⟨by simp [runFrames], h⟩
  | cons f rest ih =>
    intro n st h hmodes
    cases f with
    | twoQueues bi m =>
      obtain ⟨hrecs, hinv⟩ := ringInv_twoQueuesFrame n bi m st h
      obtain ⟨ihrecs, ihinv⟩ := ih (n + 1) (computeDrawCommandsTwoQueues n bi m st).1 hinv
        (fun g hg => hmodes g (List.mem_cons_of_mem _ hg))
      refine ⟨?_, ihinv⟩
      intro r hr
      simp only [runFrames, runFrame] at hr
      rcases List.mem_append.mp hr with h1 | h2
      · exact hrecs r h1
      · exact ihrecs r h2
    | gctOnly bi m =>
      have := hmodes _ (List.mem_cons_self _ rest)
      simp [FrameInput.isTwoQueues] at this

/-- C2 amended: in any run that uses only the dual-queue scheduler, the
    producer wait threshold submitted with every batch equals the maximum
    readyClockValue over exactly the resource slots selected for that batch,
    read before the batch overwrites them.  (The unamended claim fails once a
    single-queue frame is interleaved: computeWaitTimelineValue is a per-frame
    running maximum, see the counterexample.) -/
theorem producerWait_eq_batchMax_pureDual (inputs : List FrameInput) (n : Nat)
    (hmodes : ∀ f ∈ inputs, f.isTwoQueues = true) :
    ∀ r ∈ (runFrames inputs n initState).2.1,
      r.computeWait = specBatchProducerWaitThreshold r :=
  (ringInv_runFrames inputs n initState ringInv_initState hmodes).1

/-- Witness for the amended C2: in the pure dual-queue 64-job run, the third
    batch reuses slots 1-6 whose readyClockValues are all 1, and is submitted
    with threshold exactly 1. -/
theorem producerWait_eq_batchMax_pureDual_witness :
    ((⟨[1, 2, 3, 4, 5, 6], [1, 1, 1, 1, 1, 1], 1, 3, 3, 3⟩ : BatchRecord)
        ∈ (runFrames [FrameInput.twoQueues 6 64] 1 initState).2.1)
    ∧ (⟨[1, 2, 3, 4, 5, 6], [1, 1, 1, 1, 1, 1], 1, 3, 3, 3⟩ : BatchRecord).computeWait
        = specBatchProducerWaitThreshold
            (⟨[1, 2, 3, 4, 5, 6], [1, 1, 1, 1, 1, 1], 1, 3, 3, 3⟩ : BatchRecord) :=
  ⟨by decide,
   producerWait_eq_batchMax_pureDual [FrameInput.twoQueues 6 64] 1 (by decide) _ (by decide)⟩

end TimelineSemaphore
